import Mathlib

/-
Verification of the salio open-water simulation core.

The development shallowly embeds the CPU-side wave-height field
(WaveUtils), the buoyancy pre-step listener (main.js), the chunk
streaming registry (WorldManager) and the tile construction fallback
(Chunk) over exact rationals and integers, and proves the testable
properties of the specification against these embeddings.

JavaScript numbers are modelled as rationals: every constant appearing
in the source is a decimal literal, hence an exact rational, and no
operation used by the embedded code leaves the rationals.  The
JavaScript remainder operator keeps the sign of the dividend, which is
Int.tmod on integers.  An out-of-range array read returns undefined and
the subsequent destructuring throws, so a lookup that can miss is
modelled with Option, and a computation that can throw returns Option.
-/

namespace Salio

/-! ### WaveUtils (src/utils/WaveUtils.js) -/

/-- Skew constant of the 2D simplex lattice, literal from the source. -/
def F2 : ℚ := 0.366025403784439

/-- Unskew constant of the 2D simplex lattice, literal from the source. -/
def G2 : ℚ := 0.211324865405187

/-- Hash function for gradient lookup, WaveUtils.hash2D.  The JavaScript
remainder keeps the sign of the dividend, which is Int.tmod. -/
def hash2D (i j : ℤ) : ℤ :=
  ((i * 1597 + j * 6971).tmod 289).tmod 16

/-- The fixed palette of 16 gradient directions, WaveUtils.getGradient. -/
def gradients : List (ℚ × ℚ) :=
  [(1, 1), (-1, 1), (1, -1), (-1, -1),
   (1, 0), (-1, 0), (0, 1), (0, -1),
   (1, 1), (-1, 1), (1, -1), (-1, -1),
   (1, 0), (-1, 0), (0, 1), (0, -1)]

/-- Gradient table lookup.  A negative or too large index reads undefined
from the JavaScript array and the destructuring throws, so the lookup is
Option-valued. -/
def getGradient (h : ℤ) : Option (ℚ × ℚ) :=
  if 0 ≤ h then gradients.get? h.toNat else none

/-- Contribution of one simplex corner,
WaveUtils.calculateCornerContribution. -/
def cornerContribution (x y : ℚ) (i j : ℤ) : Option ℚ :=
  let t := 1/2 - x * x - y * y
  if t < 0 then some 0
  else (getGradient (hash2D i j)).map (fun g => t ^ 4 * (g.1 * x + g.2 * y))

/-- Straight-line tail of WaveUtils.simplex2D once the cell origin
(i, j), the in-cell offset (x0, y0) and the middle-corner selector
(i1, j1) have been computed. -/
def simplex2Dcore (x0 y0 : ℚ) (i j i1 j1 : ℤ) : Option ℚ := do
  let x1 := x0 - (i1 : ℚ) + G2
  let y1 := y0 - (j1 : ℚ) + G2
  let x2 := x0 - 1 + 2 * G2
  let y2 := y0 - 1 + 2 * G2
  let n0 ← cornerContribution x0 y0 i j
  let n1 ← cornerContribution x1 y1 (i + i1) (j + j1)
  let n2 ← cornerContribution x2 y2 (i + 1) (j + 1)
  pure (38 * (n0 + n1 + n2))

/-- 2D simplex noise, WaveUtils.simplex2D.  The source sets (i1, j1) to
(1, 0) when x0 exceeds y0 and to (0, 1) otherwise, then runs the common
tail. -/
def simplex2D (x y : ℚ) : Option ℚ :=
  let s := (x + y) * F2
  let i : ℤ := ⌊x + s⌋
  let j : ℤ := ⌊y + s⌋
  let t := ((i + j : ℤ) : ℚ) * G2
  let X0 := (i : ℚ) - t
  let Y0 := (j : ℚ) - t
  let x0 := x - X0
  let y0 := y - Y0
  if y0 < x0 then simplex2Dcore x0 y0 i j 1 0 else simplex2Dcore x0 y0 i j 0 1

/-- The wave parameters read from the water material uniforms. -/
structure WaveParams where
  time : ℚ
  amplitude : ℚ
  speed : ℚ
  frequency : ℚ
  persistence : ℚ
  lacunarity : ℚ
  iterations : ℕ

/-- The octave accumulation loop of WaveUtils.getWaveHeight: remaining
iteration count, accumulated elevation, current amplitude and current
frequency. -/
def elevationLoop (p : WaveParams) (x z : ℚ) :
    ℕ → ℚ → ℚ → ℚ → Option ℚ
  | 0, elev, _, _ => some elev
  | n + 1, elev, amp, freq =>
      (simplex2D (x * freq + p.time * p.speed)
                 (z * freq + p.time * p.speed)).bind
        (fun noiseValue =>
          elevationLoop p x z n (elev + amp * noiseValue)
            (amp * p.persistence) (freq * p.lacunarity))

/-- WaveUtils.getWaveHeight for a material whose uniforms are present. -/
def getWaveHeightParams (p : WaveParams) (x z : ℚ) : Option ℚ :=
  (elevationLoop p x z p.iterations 0 1 p.frequency).map
    (fun elevation => elevation * p.amplitude)

/-- The water material as seen by WaveUtils: it may be absent, and its
uniforms slot may be absent. -/
structure WaterMaterialRef where
  uniforms : Option WaveParams

/-- A WaveUtils instance holds a possibly-missing material reference. -/
structure WaveUtilsInst where
  waterMaterial : Option WaterMaterialRef

/-- WaveUtils.getWaveHeight including the missing-material guard. -/
def getWaveHeight (w : WaveUtilsInst) (x z : ℚ) : Option ℚ :=
  match w.waterMaterial with
  | none => some 0
  | some m =>
    match m.uniforms with
    | none => some 0
    | some p => getWaveHeightParams p x z

/-! ### WorldManager (src/unnamed/part_001, WorldManager.js with radius test) -/

/-- The set of chunk ids admitted by one reconciliation: the double loop
over the bounding square around the viewpoint cell, restricted by the
circular radius test of WorldManager.updateActiveChunks. -/
def admissionSet (vd cx cz : ℤ) : Finset (ℤ × ℤ) :=
  ((Finset.Icc (cx - vd) (cx + vd)) ×ˢ (Finset.Icc (cz - vd) (cz + vd))).filter
    (fun p => (p.1 - cx) * (p.1 - cx) + (p.2 - cz) * (p.2 - cz) ≤ vd * vd)

/-- Effect of WorldManager.updateActiveChunks on the key set of the
activeChunks map: the creation pass adds every admitted id that is not
yet resident, the eviction pass removes every resident id that is not
admitted. -/
def updateActiveChunks (vd : ℤ) (registry : Finset (ℤ × ℤ)) (cx cz : ℤ) :
    Finset (ℤ × ℤ) :=
  (registry ∪ admissionSet vd cx cz).filter (fun p => p ∈ admissionSet vd cx cz)

/-- The WorldManager state relevant to chunk streaming: the last camera
cell (initially the unmatchable Infinity pair, modelled as none) and the
key set of the activeChunks map. -/
structure WMState where
  lastCell : Option (ℤ × ℤ)
  activeChunks : Finset (ℤ × ℤ)
  deriving DecidableEq

/-- WorldManager.update: convert the camera position to a chunk cell,
take the early exit if the cell is unchanged, otherwise record the cell
and reconcile the registry. -/
def wmUpdate (chunkSize : ℚ) (vd : ℤ) (s : WMState) (camX camZ : ℚ) :
    WMState :=
  let cx : ℤ := ⌊camX / chunkSize⌋
  let cz : ℤ := ⌊camZ / chunkSize⌋
  if s.lastCell = some (cx, cz) then s
  else ⟨some (cx, cz), updateActiveChunks vd s.activeChunks cx cz⟩

/-! ### Buoyancy pre-step listener (src/main.js lines 132-192) -/

/-- The boat state read by the world preStep listener.  The listener
only ever uses Math.sin of the stored rudder angle, so the embedding
carries that sine value as a rational field. -/
structure BoatPhys where
  x : ℚ
  y : ℚ
  z : ℚ
  vx : ℚ
  vy : ℚ
  vz : ℚ
  hullHeight : ℚ
  mass : ℚ
  sinRudderAngle : ℚ
  currentThrust : ℚ

/-- The forces the preStep listener hands to the rigid-body solver in
one physics step.  The magnitude fields are zero in the airborne branch,
where the listener applies nothing at all. -/
structure StepEffects where
  buoyancy : ℚ
  dampingX : ℚ
  dampingZ : ℚ
  rudderApplied : Bool
  rudderMagnitude : ℚ
  thrustApplied : Bool
  deriving DecidableEq

/-- The world preStep listener of main.js: when the hull bottom is at or
below the water surface it applies the buoyancy force, planar damping,
the rudder force (Boat.applyRudderForce) and, for positive throttle, the
thrust force; otherwise it applies nothing. -/
def preStep (gravityMagnitude : ℚ) (b : BoatPhys) (waterHeight : ℚ) :
    StepEffects :=
  let bottomY := b.y - b.hullHeight / 2
  if bottomY ≤ waterHeight then
    let submergedPart := min 1 ((waterHeight - bottomY) / b.hullHeight)
    { buoyancy := b.mass * gravityMagnitude * (3/2) * submergedPart
      dampingX := -b.vx * (1/10 * submergedPart)
      dampingZ := -b.vz * (1/10 * submergedPart)
      rudderApplied := true
      rudderMagnitude := (b.vx^2 + b.vy^2 + b.vz^2) * 160 * b.sinRudderAngle
      thrustApplied := if 0 < b.currentThrust then true else false }
  else
    { buoyancy := 0
      dampingX := 0
      dampingZ := 0
      rudderApplied := false
      rudderMagnitude := 0
      thrustApplied := false }

/-! ### Chunk (src/unnamed/part_002) -/

/-- Chunk.calculateLODLevel, bucketing the distance from the camera. -/
def calculateLODLevel (dist : ℚ) : ℕ :=
  if dist ≤ 5 then 0
  else if dist ≤ 10 then 1
  else if dist ≤ 15 then 2
  else 3

/-- The lodLevel tag stored in mesh userData: a numeric level for the
normal path, the fallback marker string for the recovery path. -/
inductive LodTag where
  | level (n : ℕ)
  | fb
  deriving DecidableEq

/-- The water mesh data produced by Chunk.createWaterMesh: the geometry
resolution actually used, the world position and the lodLevel tag. -/
structure WaterMesh where
  res : ℕ
  posX : ℚ
  posY : ℚ
  posZ : ℚ
  tag : LodTag
  deriving DecidableEq

/-- Chunk.createWaterMesh.  Geometry construction is an external
three.js call that can throw, modelled by the oracle geomBuild; the try
branch uses the LOD-adjusted resolution, the catch branch retries once
at the fixed resolution 8.  A failure of the retry itself would escape
the catch block, so the result stays Option-valued. -/
def createWaterMesh (geomBuild : ℕ → Option Unit) (chunkSize : ℚ)
    (posX posZ : ℤ) (resolution : ℕ) (dist : ℚ) : Option WaterMesh :=
  let lod := calculateLODLevel dist
  let adjustedResolution := max 16 (resolution / 2 ^ lod)
  match geomBuild adjustedResolution with
  | some _ =>
      some ⟨adjustedResolution, (posX : ℚ) * chunkSize, 0,
            (posZ : ℚ) * chunkSize, LodTag.level lod⟩
  | none =>
      (geomBuild 8).map
        (fun _ => ⟨8, (posX : ℚ) * chunkSize, 0,
                   (posZ : ℚ) * chunkSize, LodTag.fb⟩)

/-! ### Reference definitions written from the specification text -/

/-- The reference fractal summation of the specification, for comparison
with getWaveHeight: layer i samples the noise primitive at
(x·freq·lac^i + t·speed, z·freq·lac^i + t·speed), weighs it by
persistence^i (seed amplitude 1), and the accumulated sum is scaled by
the global amplitude. -/
def waveHeightRef (p : WaveParams) (x z : ℚ) : Option ℚ :=
  ((List.range p.iterations).mapM (fun i =>
      (simplex2D (x * (p.frequency * p.lacunarity ^ i) + p.time * p.speed)
                 (z * (p.frequency * p.lacunarity ^ i) + p.time * p.speed)).map
        (fun v => p.persistence ^ i * v))).map
    (fun terms => p.amplitude * terms.sum)

/-- Upper bound function for one simplex corner contribution, used in
the noise amplitude analysis: Fq t bounds t^4 times the gradient dot
product when the corner kernel value is t. -/
def Fq (t : ℚ) : ℚ := t ^ 4 * (3341 - 5000 * t) / 2900

end Salio

namespace Salio

/-! ### WorldManager registry theorems -/

theorem mem_admissionSet {vd cx cz : ℤ} (hvd : 0 ≤ vd) (p : ℤ × ℤ) :
    p ∈ admissionSet vd cx cz ↔
      (p.1 - cx) * (p.1 - cx) + (p.2 - cz) * (p.2 - cz) ≤ vd * vd := by
  simp only [admissionSet, Finset.mem_filter, Finset.mem_product, Finset.mem_Icc]
  constructor
  · rintro ⟨_, h⟩; exact h
  · intro h
    refine ⟨⟨⟨?_, ?_⟩, ?_, ?_⟩, h⟩ <;>
      nlinarith [sq_nonneg (p.1 - cx + vd), sq_nonneg (p.1 - cx - vd),
        sq_nonneg (p.2 - cz + vd), sq_nonneg (p.2 - cz - vd),
        sq_nonneg (p.1 - cx), sq_nonneg (p.2 - cz)]

theorem mem_updateActiveChunks (vd : ℤ) (reg : Finset (ℤ × ℤ)) (cx cz : ℤ)
    (p : ℤ × ℤ) :
    p ∈ updateActiveChunks vd reg cx cz ↔ p ∈ admissionSet vd cx cz := by
  simp only [updateActiveChunks, Finset.mem_filter, Finset.mem_union]
  tauto

/-- C1: after updateActiveChunks(cx, cz) the registry holds exactly the
grid coordinates with squared distance at most viewDistance squared from
the viewpoint cell, and for viewDistance 3 reconciling at (0,0) leaves
exactly 29 resident tiles. -/
theorem updateActiveChunks_exact (vd cx cz : ℤ) (reg : Finset (ℤ × ℤ))
    (hvd : 0 ≤ vd) :
    (∀ p : ℤ × ℤ, p ∈ updateActiveChunks vd reg cx cz ↔
        (p.1 - cx) * (p.1 - cx) + (p.2 - cz) * (p.2 - cz) ≤ vd * vd) ∧
    (updateActiveChunks 3 (∅ : Finset (ℤ × ℤ)) 0 0).card = 29 := by
  refine ⟨fun p => ?_, by decide⟩
  rw [mem_updateActiveChunks, mem_admissionSet hvd]

theorem updateActiveChunks_exact_witness :
    (0 : ℤ) ≤ 3 ∧
    (((3, 0) : ℤ × ℤ) ∈ updateActiveChunks 3 (∅ : Finset (ℤ × ℤ)) 0 0 ↔
      ((3 : ℤ) - 0) * ((3 : ℤ) - 0) + ((0 : ℤ) - 0) * ((0 : ℤ) - 0) ≤ 3 * 3) :=
  ⟨by decide, (updateActiveChunks_exact 3 0 0 ∅ (by decide)).1 (3, 0)⟩

/-! ### Buoyancy theorems -/

/-- C3: when the hull bottom is above the water surface the listener
applies nothing; otherwise it applies the vertical force
mass · gravityMagnitude · buoyancyGain · submergedRatio at the body
center, with buoyancyGain 1.5 and the ratio clamped to the unit
interval. -/
theorem preStep_buoyancy_correct (g : ℚ) (b : BoatPhys) (w : ℚ)
    (hh : 0 < b.hullHeight) :
    (b.y - b.hullHeight / 2 > w →
      preStep g b w = ⟨0, 0, 0, false, 0, false⟩) ∧
    (b.y - b.hullHeight / 2 ≤ w →
      (preStep g b w).buoyancy =
        b.mass * g * (3/2) *
          max 0 (min 1 ((w - (b.y - b.hullHeight / 2)) / b.hullHeight))) := by
  constructor
  · intro hgt
    simp only [preStep]
    rw [if_neg (not_le.mpr hgt)]
  · intro hle
    have hr : 0 ≤ (w - (b.y - b.hullHeight / 2)) / b.hullHeight :=
      div_nonneg (by linarith) (le_of_lt hh)
    have hmax : max 0 (min 1 ((w - (b.y - b.hullHeight / 2)) / b.hullHeight))
        = min 1 ((w - (b.y - b.hullHeight / 2)) / b.hullHeight) :=
      max_eq_right (le_min zero_le_one hr)
    simp only [preStep]
    rw [if_pos hle, hmax]

theorem preStep_buoyancy_correct_witness :
    (0 : ℚ) < 1 ∧
    (preStep (982/100) ⟨0, 0, 0, 0, 0, 0, 1, 1200, 0, 0⟩ 0).buoyancy
      = 1200 * (982/100) * (3/2) * (1/2) := by
  refine ⟨by norm_num, ?_⟩
  have h := (preStep_buoyancy_correct (982/100) ⟨0, 0, 0, 0, 0, 0, 1, 1200, 0, 0⟩ 0
    (by norm_num)).2 (by norm_num)
  rw [h]
  norm_num

/-- C5 counterexample: a boat with a nonzero rudder angle sine and a
positive throttle whose hull bottom is above the water receives neither
the steering force nor the thrust force, because both calls sit inside
the submerged branch of the listener. -/
theorem preStep_airborne_skips_rudder_thrust :
    ((1/2 : ℚ) ≠ 0) ∧ ((0 : ℚ) < 5) ∧ ((10 : ℚ) - 1 / 2 > 0) ∧
    preStep (982/100) ⟨0, 10, 0, 1, 0, 0, 1, 1200, 1/2, 5⟩ 0
      = ⟨0, 0, 0, false, 0, false⟩ := by
  refine ⟨by norm_num, by norm_num, by norm_num, ?_⟩
  simp only [preStep]
  rw [if_neg (by norm_num)]

/-- C5 amended: the steering and thrust forces are applied exactly on
the physics steps where the hull bottom is at or below the water
surface; thrust additionally requires a positive throttle, and the
steering force magnitude is speed squared times 160 times the sine of
the rudder angle. -/
theorem preStep_rudder_thrust_iff (g : ℚ) (b : BoatPhys) (w : ℚ) :
    ((preStep g b w).rudderApplied = true ↔ b.y - b.hullHeight / 2 ≤ w) ∧
    ((preStep g b w).thrustApplied = true ↔
      (b.y - b.hullHeight / 2 ≤ w ∧ 0 < b.currentThrust)) ∧
    (b.y - b.hullHeight / 2 ≤ w →
      (preStep g b w).rudderMagnitude
        = (b.vx ^ 2 + b.vy ^ 2 + b.vz ^ 2) * 160 * b.sinRudderAngle) := by
  refine ⟨?_, ?_, ?_⟩
  · by_cases hb : b.y - b.hullHeight / 2 ≤ w <;> simp [preStep, hb]
  · by_cases hb : b.y - b.hullHeight / 2 ≤ w <;>
      by_cases ht : 0 < b.currentThrust <;> simp [preStep, hb, ht]
  · intro hb; simp [preStep, hb]

theorem preStep_rudder_thrust_iff_witness :
    (preStep (982/100) ⟨0, 0, 0, 2, 0, 0, 1, 1200, 1/2, 5⟩ 0).rudderApplied = true ∧
    (preStep (982/100) ⟨0, 0, 0, 2, 0, 0, 1, 1200, 1/2, 5⟩ 0).rudderMagnitude
      = ((2 : ℚ) ^ 2 + 0 ^ 2 + 0 ^ 2) * 160 * (1/2) := by
  have h := preStep_rudder_thrust_iff (982/100) ⟨0, 0, 0, 2, 0, 0, 1, 1200, 1/2, 5⟩ 0
  exact ⟨h.1.mpr (by norm_num), h.2.2 (by norm_num)⟩

/-! ### Chunk fallback theorem -/

/-- C9: when geometry construction fails at the LOD-adjusted resolution
and the single retry at the fixed minimal resolution 8 succeeds,
createWaterMesh still returns a mesh at resolution 8, positioned at
coordinate times chunkSize and tagged with the fallback marker, without
propagating the failure. -/
theorem createWaterMesh_fallback (geomBuild : ℕ → Option Unit) (cs : ℚ)
    (px pz : ℤ) (resolution : ℕ) (dist : ℚ)
    (hfail : geomBuild (max 16 (resolution / 2 ^ calculateLODLevel dist)) = none)
    (hok : geomBuild 8 = some ()) :
    createWaterMesh geomBuild cs px pz resolution dist
      = some ⟨8, (px : ℚ) * cs, 0, (pz : ℚ) * cs, LodTag.fb⟩ := by
  simp only [createWaterMesh]
  rw [hfail, hok]
  rfl

theorem createWaterMesh_fallback_witness :
    ((fun n => if n = 8 then some () else (none : Option Unit))
        (max 16 (256 / 2 ^ calculateLODLevel 0)) = none) ∧
    createWaterMesh (fun n => if n = 8 then some () else none) 16 2 3 256 0
      = some ⟨8, (2 : ℚ) * 16, 0, (3 : ℚ) * 16, LodTag.fb⟩ := by
  refine ⟨by norm_num [calculateLODLevel], ?_⟩
  exact createWaterMesh_fallback (fun n => if n = 8 then some () else none)
    16 2 3 256 0 (by norm_num [calculateLODLevel]) (by norm_num)

/-! ### Streaming no-op theorems -/

/-- C8: calling update again while the camera position maps to the same
viewpoint cell as the recorded one takes the early exit and leaves the
whole streaming state, in particular the tile registry, unchanged. -/
theorem wmUpdate_noop (cs : ℚ) (vd : ℤ) (s : WMState) (camX camZ : ℚ)
    (h : s.lastCell = some (⌊camX / cs⌋, ⌊camZ / cs⌋)) :
    wmUpdate cs vd s camX camZ = s := by
  simp only [wmUpdate]
  rw [if_pos h]

theorem wmUpdate_noop_witness :
    wmUpdate 16 3 ⟨some (0, 0), ∅⟩ 0 0 = ⟨some (0, 0), ∅⟩ :=
  wmUpdate_noop 16 3 ⟨some (0, 0), ∅⟩ 0 0 (by norm_num)

/-- C7 counterexample: with chunkSize 16 and viewDistance 3, moving the
camera from x = 15.9 to x = 16.1 is a displacement of 0.2 in x and 0 in
z, both smaller than one cell width, yet the move crosses a cell
boundary and the reconciliation changes the registry. -/
theorem wmUpdate_small_move_changes_registry :
    |((159 : ℚ)/10 + 2/10) - 159/10| < 16 ∧ |((0 : ℚ) + 0) - 0| < 16 ∧
    (wmUpdate 16 3 (wmUpdate 16 3 ⟨none, ∅⟩ (159/10) 0) (159/10 + 2/10) (0 + 0)).activeChunks
      ≠ (wmUpdate 16 3 ⟨none, ∅⟩ (159/10) 0).activeChunks := by
  refine ⟨by rw [abs_lt]; constructor <;> norm_num,
    by rw [abs_lt]; constructor <;> norm_num, ?_⟩
  have h1 : (⌊(159 : ℚ)/10 / 16⌋ : ℤ) = 0 := by norm_num
  have h0 : (⌊(0 : ℚ) / 16⌋ : ℤ) = 0 := by norm_num
  have h2 : (⌊((159 : ℚ)/10 + 2/10) / 16⌋ : ℤ) = 1 := by norm_num
  have h02 : (⌊((0 : ℚ) + 0) / 16⌋ : ℤ) = 0 := by norm_num
  simp only [wmUpdate, h1, h0, h2, h02, reduceCtorEq, if_false, Option.some.injEq,
    Prod.mk.injEq]
  norm_num
  decide

/-- C7 amended: a displacement that keeps the camera in the same grid
cell, that is leaves both floor(x / chunkSize) and floor(z / chunkSize)
unchanged, produces no registry changes; a sub-cell-width displacement
alone does not suffice, since it may cross a cell boundary. -/
theorem wmUpdate_same_cell_registry_stable (cs : ℚ) (vd : ℤ) (s : WMState)
    (px pz dx dz : ℚ)
    (h1 : ⌊(px + dx) / cs⌋ = ⌊px / cs⌋) (h2 : ⌊(pz + dz) / cs⌋ = ⌊pz / cs⌋) :
    (wmUpdate cs vd (wmUpdate cs vd s px pz) (px + dx) (pz + dz)).activeChunks
      = (wmUpdate cs vd s px pz).activeChunks := by
  have hlast : (wmUpdate cs vd s px pz).lastCell = some (⌊px / cs⌋, ⌊pz / cs⌋) := by
    simp only [wmUpdate]
    split
    next h => rw [h]
    next => rfl
  generalize hq : wmUpdate cs vd s px pz = q at hlast ⊢
  simp only [wmUpdate]
  rw [if_pos (by rw [hlast, h1, h2])]

theorem wmUpdate_same_cell_registry_stable_witness :
    (wmUpdate 16 3 (wmUpdate 16 3 ⟨none, ∅⟩ 0 0) (0 + 1) (0 + 1)).activeChunks
      = (wmUpdate 16 3 ⟨none, ∅⟩ 0 0).activeChunks :=
  wmUpdate_same_cell_registry_stable 16 3 ⟨none, ∅⟩ 0 0 1 1
    (by norm_num) (by norm_num)

/-! ### Hash range theorem -/

/-- C4 failing input: the JavaScript remainder keeps the sign of the
dividend, so hash2D(-1, 0) evaluates to -8, outside [0, 16); the
gradient table lookup then reads undefined, and a noise sample whose
lattice cell has negative hash, such as simplex2D(-0.3, -0.3), throws
instead of returning a value. -/
theorem hash2D_failing_input :
    hash2D (-1) 0 = -8 ∧ getGradient (hash2D (-1) 0) = none ∧
    simplex2D (-3/10) (-3/10) = none := by
  refine ⟨by decide, by decide, ?_⟩
  norm_num [simplex2D, simplex2Dcore, cornerContribution, getGradient, hash2D,
    gradients, F2, G2, show ((-8568 : ℤ).tmod 289).tmod 16 = -11 by decide]

/-! ### Missing material theorem -/

/-- C10: a WaveUtils instance built without a water material, or whose
material has no uniforms, returns exactly height 0 at every position. -/
theorem getWaveHeight_no_material (w : WaveUtilsInst) (x z : ℚ)
    (h : w.waterMaterial = none ∨
      ∃ m, w.waterMaterial = some m ∧ m.uniforms = none) :
    getWaveHeight w x z = some 0 := by
  rcases h with h | ⟨m, hm, hu⟩
  · simp only [getWaveHeight, h]
  · simp only [getWaveHeight, hm, hu]

theorem getWaveHeight_no_material_witness :
    getWaveHeight ⟨none⟩ 5 7 = some 0 ∧
    getWaveHeight ⟨some ⟨none⟩⟩ 5 7 = some 0 :=
  ⟨getWaveHeight_no_material ⟨none⟩ 5 7 (Or.inl rfl),
   getWaveHeight_no_material ⟨some ⟨none⟩⟩ 5 7 (Or.inr ⟨⟨none⟩, rfl, rfl⟩)⟩

/-! ### The octave loop equals the reference summation -/

theorem optionMapM_map {α β γ : Type} (g : α → β) (f : β → Option γ) :
    ∀ l : List α, (l.map g).mapM f = l.mapM (fun a => f (g a)) := by
  intro l
  induction l with
  | nil => rfl
  | cons a t ih => rw [List.map_cons, List.mapM_cons, List.mapM_cons, ih]

theorem optionMapM_congr {α β : Type} {f g : α → Option β} :
    ∀ {l : List α}, (∀ a ∈ l, f a = g a) → l.mapM f = l.mapM g := by
  intro l
  induction l with
  | nil => intro _; rfl
  | cons a t ih =>
      intro h
      rw [List.mapM_cons, List.mapM_cons, h a (List.mem_cons_self a t),
        ih (fun b hb => h b (List.mem_cons_of_mem a hb))]

theorem elevationLoop_eq_ref (p : WaveParams) (x z : ℚ) :
    ∀ (n : ℕ) (elev amp freq : ℚ),
      elevationLoop p x z n elev amp freq =
        ((List.range n).mapM (fun i =>
            (simplex2D (x * (freq * p.lacunarity ^ i) + p.time * p.speed)
                       (z * (freq * p.lacunarity ^ i) + p.time * p.speed)).map
              (fun v => amp * p.persistence ^ i * v))).map
          (fun terms => elev + terms.sum) := by
  intro n
  induction n with
  | zero =>
      intro elev amp freq
      simp only [elevationLoop, List.range_zero, List.mapM_nil, Option.pure_def,
        Option.map_some', List.sum_nil, add_zero]
  | succ k ih =>
      intro elev amp freq
      rw [elevationLoop, List.range_succ_eq_map, List.mapM_cons, optionMapM_map]
      simp only [Nat.succ_eq_add_one]
      have hcongr :
          (List.range k).mapM (fun i =>
            (simplex2D (x * (freq * p.lacunarity ^ (i + 1)) + p.time * p.speed)
                       (z * (freq * p.lacunarity ^ (i + 1)) + p.time * p.speed)).map
              (fun v => amp * p.persistence ^ (i + 1) * v))
          = (List.range k).mapM (fun i =>
            (simplex2D (x * (freq * p.lacunarity * p.lacunarity ^ i) + p.time * p.speed)
                       (z * (freq * p.lacunarity * p.lacunarity ^ i) + p.time * p.speed)).map
              (fun v => amp * p.persistence * p.persistence ^ i * v)) := by
        apply optionMapM_congr
        intro i _
        have e1 : x * (freq * p.lacunarity ^ (i + 1)) + p.time * p.speed
            = x * (freq * p.lacunarity * p.lacunarity ^ i) + p.time * p.speed := by
          rw [pow_succ]; ring
        have e2 : z * (freq * p.lacunarity ^ (i + 1)) + p.time * p.speed
            = z * (freq * p.lacunarity * p.lacunarity ^ i) + p.time * p.speed := by
          rw [pow_succ]; ring
        have e3 : amp * p.persistence ^ (i + 1)
            = amp * p.persistence * p.persistence ^ i := by
          rw [pow_succ]; ring
        rw [e1, e2]
        simp only [e3]
      cases h0 : simplex2D (x * freq + p.time * p.speed)
          (z * freq + p.time * p.speed) with
      | none =>
          simp [h0, pow_zero, mul_one]
      | some v =>
          simp only [pow_zero, mul_one, h0, Option.map_some', Option.some_bind,
            Option.bind_eq_bind]
          rw [ih (elev + amp * v) (amp * p.persistence) (freq * p.lacunarity), hcongr]
          cases hrest : (List.range k).mapM (fun i =>
            (simplex2D (x * (freq * p.lacunarity * p.lacunarity ^ i) + p.time * p.speed)
                       (z * (freq * p.lacunarity * p.lacunarity ^ i) + p.time * p.speed)).map
              (fun v => amp * p.persistence * p.persistence ^ i * v)) with
          | none => simp [hrest]
          | some l =>
              simp [hrest, List.sum_cons]
              ring

/-- C2: getWaveHeight with the material present equals the reference
fractal summation of the specification: the octave loop starting from
amplitude 1 and the base frequency, accumulating persistence-weighted
noise samples at lacunarity-scaled frequencies, scaled at the end by
the global amplitude. -/
theorem getWaveHeight_eq_ref (p : WaveParams) (x z : ℚ) :
    getWaveHeight ⟨some ⟨some p⟩⟩ x z = waveHeightRef p x z := by
  show getWaveHeightParams p x z = waveHeightRef p x z
  rw [getWaveHeightParams, waveHeightRef,
    elevationLoop_eq_ref p x z p.iterations 0 1 p.frequency]
  have hcongr :
      (List.range p.iterations).mapM (fun i =>
        (simplex2D (x * (p.frequency * p.lacunarity ^ i) + p.time * p.speed)
                   (z * (p.frequency * p.lacunarity ^ i) + p.time * p.speed)).map
          (fun v => 1 * p.persistence ^ i * v))
      = (List.range p.iterations).mapM (fun i =>
        (simplex2D (x * (p.frequency * p.lacunarity ^ i) + p.time * p.speed)
                   (z * (p.frequency * p.lacunarity ^ i) + p.time * p.speed)).map
          (fun v => p.persistence ^ i * v)) := by
    apply optionMapM_congr
    intro i _
    simp [one_mul]
  rw [hcongr]
  cases hterms : (List.range p.iterations).mapM (fun i =>
      (simplex2D (x * (p.frequency * p.lacunarity ^ i) + p.time * p.speed)
                 (z * (p.frequency * p.lacunarity ^ i) + p.time * p.speed)).map
        (fun v => p.persistence ^ i * v)) with
  | none => simp
  | some l => simp [mul_comm]

/-! ### Amplitude bound of the noise primitive and of the wave field -/

theorem cornerKernelKey (X Y t : ℚ) (ht : t = 1/2 - X * X - Y * Y) :
    2900 * (X + Y) ≤ 3341 - 5000 * t := by
  nlinarith [sq_nonneg (X + Y - 29/50), sq_nonneg (X - Y)]

theorem getGradient_bound {h : ℤ} {g : ℚ × ℚ} (hg : getGradient h = some g) :
    |g.1| ≤ 1 ∧ |g.2| ≤ 1 := by
  rw [getGradient] at hg
  split at hg
  · have hmem : g ∈ gradients := List.get?_mem hg
    simp only [gradients, List.mem_cons, List.not_mem_nil, or_false] at hmem
    rcases hmem with rfl | rfl | rfl | rfl | rfl | rfl | rfl | rfl | rfl | rfl | rfl |
      rfl | rfl | rfl | rfl | rfl <;> norm_num
  · exact absurd hg (by simp)

theorem cornerContribution_bound {x y : ℚ} {i j : ℤ} {n : ℚ}
    (h : cornerContribution x y i j = some n) :
    |n| ≤ Fq (max 0 (1/2 - x * x - y * y)) := by
  rw [cornerContribution] at h
  split at h
  · rename_i ht
    rw [max_eq_left (le_of_lt ht)]
    have hn : n = 0 := by injection h with h'; exact h'.symm
    simp [hn, Fq]
  · rename_i ht
    push_neg at ht
    rw [max_eq_right ht]
    cases hg : getGradient (hash2D i j) with
    | none => rw [hg] at h; exact absurd h (by simp)
    | some g =>
        rw [hg] at h
        simp only [Option.map_some', Option.some.injEq] at h
        subst h
        obtain ⟨hg1, hg2⟩ := getGradient_bound hg
        set t := 1/2 - x * x - y * y with hts
        have hd : |g.1 * x + g.2 * y| ≤ (3341 - 5000 * t) / 2900 := by
          have habs : |g.1 * x + g.2 * y| ≤ |x| + |y| := by
            calc |g.1 * x + g.2 * y| ≤ |g.1 * x| + |g.2 * y| := abs_add _ _
            _ = |g.1| * |x| + |g.2| * |y| := by rw [abs_mul, abs_mul]
            _ ≤ 1 * |x| + 1 * |y| := by
                have := abs_nonneg x
                have := abs_nonneg y
                gcongr
            _ = |x| + |y| := by ring
          have hkey : 2900 * (|x| + |y|) ≤ 3341 - 5000 * t :=
            cornerKernelKey |x| |y| t
              (by rw [abs_mul_abs_self, abs_mul_abs_self, hts])
          rw [le_div_iff₀ (by norm_num : (0:ℚ) < 2900)]
          linarith
        calc |t ^ 4 * (g.1 * x + g.2 * y)|
            = t ^ 4 * |g.1 * x + g.2 * y| := by
              rw [abs_mul, abs_of_nonneg (by positivity : (0:ℚ) ≤ t ^ 4)]
          _ ≤ t ^ 4 * ((3341 - 5000 * t) / 2900) :=
              mul_le_mul_of_nonneg_left hd (by positivity)
          _ = Fq t := by rw [Fq]; ring

theorem Fq_mono {a b : ℚ} (ha : 0 ≤ a) (hab : a ≤ b) (hb : b ≤ 1/2) : Fq a ≤ Fq b := by
  have hb0 : 0 ≤ b := le_trans ha hab
  rw [Fq, Fq, div_le_div_iff₀ (by norm_num) (by norm_num)]
  nlinarith [mul_nonneg (sub_nonneg.2 hab) (mul_nonneg (mul_nonneg ha ha) ha),
    mul_nonneg (sub_nonneg.2 hab) (mul_nonneg (mul_nonneg hb0 hb0) hb0),
    mul_nonneg (sub_nonneg.2 hab) (mul_nonneg (mul_nonneg hb0 hb0) ha),
    mul_nonneg (sub_nonneg.2 hab) (mul_nonneg (mul_nonneg ha ha) hb0),
    mul_nonneg (mul_nonneg (mul_nonneg ha ha) ha) (sub_nonneg.2 hb),
    mul_nonneg (mul_nonneg (mul_nonneg hb0 hb0) hb0) (sub_nonneg.2 hb),
    sq_nonneg (a - b), sq_nonneg (a + b)]

theorem Fq_chord {t : ℚ} (h0 : 0 ≤ t) (h1 : t ≤ 9/25) :
    Fq t ≤ 1123389/45312500 * t := by
  rw [Fq, div_le_iff₀ (by norm_num : (0:ℚ) < 2900)]
  nlinarith [mul_nonneg (mul_nonneg h0 h0) h0, sq_nonneg (t - 9/25),
    mul_nonneg (mul_nonneg (mul_nonneg h0 h0) h0) (sub_nonneg.2 h1),
    mul_nonneg (mul_nonneg h0 h0) (sub_nonneg.2 h1),
    mul_nonneg (sub_nonneg.2 h1) (sub_nonneg.2 h1)]

theorem Fq_pair_big {s : ℚ} (h1 : 9/25 ≤ s) (h2 : s ≤ 1/2) :
    Fq s + 2 * Fq (2/3 - s) ≤ 1/38 := by
  rcases le_total s (2/5) with h | h
  · have e1 : Fq s ≤ Fq (2/5) := Fq_mono (by linarith) h (by norm_num)
    have e2 : Fq (2/3 - s) ≤ Fq (23/75) :=
      Fq_mono (by linarith) (by linarith) (by norm_num)
    have : Fq (2/5) + 2 * Fq (23/75) ≤ 1/38 := by norm_num [Fq]
    linarith
  · rcases le_total s (11/25) with h' | h'
    · have e1 : Fq s ≤ Fq (11/25) := Fq_mono (by linarith) h' (by norm_num)
      have e2 : Fq (2/3 - s) ≤ Fq (4/15) :=
        Fq_mono (by linarith) (by linarith) (by norm_num)
      have : Fq (11/25) + 2 * Fq (4/15) ≤ 1/38 := by norm_num [Fq]
      linarith
    · rcases le_total s (47/100) with h'' | h''
      · have e1 : Fq s ≤ Fq (47/100) := Fq_mono (by linarith) h'' (by norm_num)
        have e2 : Fq (2/3 - s) ≤ Fq (17/75) :=
          Fq_mono (by linarith) (by linarith) (by norm_num)
        have : Fq (47/100) + 2 * Fq (17/75) ≤ 1/38 := by norm_num [Fq]
        linarith
      · have e1 : Fq s ≤ Fq (1/2) := Fq_mono (by linarith) h2 (by norm_num)
        have e2 : Fq (2/3 - s) ≤ Fq (59/300) :=
          Fq_mono (by linarith) (by linarith) (by norm_num)
        have : Fq (1/2) + 2 * Fq (59/300) ≤ 1/38 := by norm_num [Fq]
        linarith

theorem Fq_sum_le {t0 t1 t2 : ℚ}
    (g0 : 0 ≤ t0) (g1 : 0 ≤ t1) (g2 : 0 ≤ t2)
    (u0 : t0 ≤ 1/2) (u1 : t1 ≤ 1/2) (u2 : t2 ≤ 1/2)
    (p01 : t0 + t1 ≤ 2/3) (p02 : t0 + t2 ≤ 2/3) (p12 : t1 + t2 ≤ 2/3) :
    Fq t0 + Fq t1 + Fq t2 ≤ 1/38 := by
  rcases le_total (9/25) t0 with hb0 | hs0
  · have e1 : Fq t1 ≤ Fq (2/3 - t0) := Fq_mono g1 (by linarith) (by linarith)
    have e2 : Fq t2 ≤ Fq (2/3 - t0) := Fq_mono g2 (by linarith) (by linarith)
    have hbig := Fq_pair_big hb0 u0
    linarith
  · rcases le_total (9/25) t1 with hb1 | hs1
    · have e0 : Fq t0 ≤ Fq (2/3 - t1) := Fq_mono g0 (by linarith) (by linarith)
      have e2 : Fq t2 ≤ Fq (2/3 - t1) := Fq_mono g2 (by linarith) (by linarith)
      have hbig := Fq_pair_big hb1 u1
      linarith
    · rcases le_total (9/25) t2 with hb2 | hs2
      · have e0 : Fq t0 ≤ Fq (2/3 - t2) := Fq_mono g0 (by linarith) (by linarith)
        have e1 : Fq t1 ≤ Fq (2/3 - t2) := Fq_mono g1 (by linarith) (by linarith)
        have hbig := Fq_pair_big hb2 u2
        linarith
      · have c0 := Fq_chord g0 hs0
        have c1 := Fq_chord g1 hs1
        have c2 := Fq_chord g2 hs2
        have hsum : t0 + t1 + t2 ≤ 1 := by linarith
        nlinarith [c0, c1, c2, hsum]

theorem tpair (a b c d : ℚ) (hS : 2/3 ≤ (a-c)^2 + (b-d)^2) :
    max 0 (1/2 - a*a - b*b) + max 0 (1/2 - c*c - d*d) ≤ 2/3 := by
  rcases le_total (1/2 - a*a - b*b) 0 with h1 | h1 <;>
    rcases le_total (1/2 - c*c - d*d) 0 with h2 | h2
  · rw [max_eq_left h1, max_eq_left h2]; norm_num
  · rw [max_eq_left h1, max_eq_right h2]; nlinarith [sq_nonneg c, sq_nonneg d]
  · rw [max_eq_right h1, max_eq_left h2]; nlinarith [sq_nonneg a, sq_nonneg b]
  · rw [max_eq_right h1, max_eq_right h2]
    nlinarith [sq_nonneg (a + c), sq_nonneg (b + d)]

theorem simplexCorners_bound {x0 y0 x1 y1 x2 y2 : ℚ} {i0 j0 i1 j1 i2 j2 : ℤ}
    {n0 n1 n2 : ℚ}
    (hS01 : 2/3 ≤ (x0 - x1)^2 + (y0 - y1)^2)
    (hS02 : 2/3 ≤ (x0 - x2)^2 + (y0 - y2)^2)
    (hS12 : 2/3 ≤ (x1 - x2)^2 + (y1 - y2)^2)
    (h0 : cornerContribution x0 y0 i0 j0 = some n0)
    (h1 : cornerContribution x1 y1 i1 j1 = some n1)
    (h2 : cornerContribution x2 y2 i2 j2 = some n2) :
    |38 * (n0 + n1 + n2)| ≤ 1 := by
  have b0 := cornerContribution_bound h0
  have b1 := cornerContribution_bound h1
  have b2 := cornerContribution_bound h2
  have q01 := tpair x0 y0 x1 y1 hS01
  have q02 := tpair x0 y0 x2 y2 hS02
  have q12 := tpair x1 y1 x2 y2 hS12
  have u0 : max 0 (1/2 - x0*x0 - y0*y0) ≤ 1/2 :=
    max_le (by norm_num) (by nlinarith [mul_self_nonneg x0, mul_self_nonneg y0])
  have u1 : max 0 (1/2 - x1*x1 - y1*y1) ≤ 1/2 :=
    max_le (by norm_num) (by nlinarith [mul_self_nonneg x1, mul_self_nonneg y1])
  have u2 : max 0 (1/2 - x2*x2 - y2*y2) ≤ 1/2 :=
    max_le (by norm_num) (by nlinarith [mul_self_nonneg x2, mul_self_nonneg y2])
  have hsum := Fq_sum_le (le_max_left _ _) (le_max_left _ _) (le_max_left _ _)
    u0 u1 u2 q01 q02 q12
  have tri : |n0 + n1 + n2| ≤ |n0| + |n1| + |n2| := abs_add_three n0 n1 n2
  calc |38 * (n0 + n1 + n2)| = 38 * |n0 + n1 + n2| := by
        rw [abs_mul]; norm_num
    _ ≤ 1 := by linarith

theorem simplex2Dcore_bound {x0 y0 : ℚ} {i j : ℤ} {i1 j1 : ℤ} {v : ℚ}
    (hsel : (i1 = 1 ∧ j1 = 0) ∨ (i1 = 0 ∧ j1 = 1))
    (h : simplex2Dcore x0 y0 i j i1 j1 = some v) : |v| ≤ 1 := by
  simp only [simplex2Dcore, Option.bind_eq_bind] at h
  rcases hsel with ⟨e1, e2⟩ | ⟨e1, e2⟩ <;> subst e1 <;> subst e2
  · cases hc0 : cornerContribution x0 y0 i j with
    | none => rw [hc0] at h; simp at h
    | some n0 =>
      rw [hc0] at h
      simp only [Option.some_bind] at h
      cases hc1 : cornerContribution (x0 - ((1:ℤ):ℚ) + G2) (y0 - ((0:ℤ):ℚ) + G2)
          (i + 1) (j + 0) with
      | none => rw [hc1] at h; simp at h
      | some n1 =>
        rw [hc1] at h
        simp only [Option.some_bind] at h
        cases hc2 : cornerContribution (x0 - 1 + 2*G2) (y0 - 1 + 2*G2)
            (i + 1) (j + 1) with
        | none => rw [hc2] at h; simp at h
        | some n2 =>
          rw [hc2] at h
          simp only [Option.some_bind, Option.pure_def, Option.some.injEq] at h
          subst h
          apply simplexCorners_bound ?_ ?_ ?_ hc0 hc1 hc2
          · rw [show (x0 - (x0 - ((1:ℤ):ℚ) + G2))^2 + (y0 - (y0 - ((0:ℤ):ℚ) + G2))^2
                = (1 - G2)^2 + G2^2 by push_cast; ring]
            norm_num [G2]
          · rw [show (x0 - (x0 - 1 + 2*G2))^2 + (y0 - (y0 - 1 + 2*G2))^2
                = (1 - 2*G2)^2 + (1 - 2*G2)^2 by ring]
            norm_num [G2]
          · rw [show ((x0 - ((1:ℤ):ℚ) + G2) - (x0 - 1 + 2*G2))^2
                + ((y0 - ((0:ℤ):ℚ) + G2) - (y0 - 1 + 2*G2))^2
                = G2^2 + (1 - G2)^2 by push_cast; ring]
            norm_num [G2]
  · cases hc0 : cornerContribution x0 y0 i j with
    | none => rw [hc0] at h; simp at h
    | some n0 =>
      rw [hc0] at h
      simp only [Option.some_bind] at h
      cases hc1 : cornerContribution (x0 - ((0:ℤ):ℚ) + G2) (y0 - ((1:ℤ):ℚ) + G2)
          (i + 0) (j + 1) with
      | none => rw [hc1] at h; simp at h
      | some n1 =>
        rw [hc1] at h
        simp only [Option.some_bind] at h
        cases hc2 : cornerContribution (x0 - 1 + 2*G2) (y0 - 1 + 2*G2)
            (i + 1) (j + 1) with
        | none => rw [hc2] at h; simp at h
        | some n2 =>
          rw [hc2] at h
          simp only [Option.some_bind, Option.pure_def, Option.some.injEq] at h
          subst h
          apply simplexCorners_bound ?_ ?_ ?_ hc0 hc1 hc2
          · rw [show (x0 - (x0 - ((0:ℤ):ℚ) + G2))^2 + (y0 - (y0 - ((1:ℤ):ℚ) + G2))^2
                = G2^2 + (1 - G2)^2 by push_cast; ring]
            norm_num [G2]
          · rw [show (x0 - (x0 - 1 + 2*G2))^2 + (y0 - (y0 - 1 + 2*G2))^2
                = (1 - 2*G2)^2 + (1 - 2*G2)^2 by ring]
            norm_num [G2]
          · rw [show ((x0 - ((0:ℤ):ℚ) + G2) - (x0 - 1 + 2*G2))^2
                + ((y0 - ((1:ℤ):ℚ) + G2) - (y0 - 1 + 2*G2))^2
                = (1 - G2)^2 + G2^2 by push_cast; ring]
            norm_num [G2]

theorem simplex2D_bound {x y v : ℚ} (h : simplex2D x y = some v) : |v| ≤ 1 := by
  simp only [simplex2D] at h
  split at h
  · exact simplex2Dcore_bound (Or.inl ⟨rfl, rfl⟩) h
  · exact simplex2Dcore_bound (Or.inr ⟨rfl, rfl⟩) h

theorem elevationLoop_bound (p : WaveParams) (x z : ℚ) (hpers : 0 ≤ p.persistence) :
    ∀ (n : ℕ) (elev amp freq v : ℚ),
      elevationLoop p x z n elev amp freq = some v →
      |v - elev| ≤ |amp| * ∑ i ∈ Finset.range n, p.persistence ^ i := by
  intro n
  induction n with
  | zero =>
      intro elev amp freq v h
      simp only [elevationLoop, Option.some.injEq] at h
      subst h
      simp
  | succ k ih =>
      intro elev amp freq v h
      rw [elevationLoop] at h
      cases hs : simplex2D (x * freq + p.time * p.speed)
          (z * freq + p.time * p.speed) with
      | none => rw [hs] at h; exact absurd h (by simp)
      | some nv =>
          rw [hs] at h
          simp only [Option.some_bind] at h
          have hrec := ih (elev + amp * nv) (amp * p.persistence)
            (freq * p.lacunarity) v h
          have hnv := simplex2D_bound hs
          have habs : |amp * p.persistence| = |amp| * p.persistence := by
            rw [abs_mul, abs_of_nonneg hpers]
          rw [habs] at hrec
          rw [geom_sum_succ]
          have htri : |v - elev| ≤ |v - (elev + amp * nv)| + |amp * nv| := by
            have hsplit : v - elev = (v - (elev + amp * nv)) + amp * nv := by ring
            rw [hsplit]
            exact abs_add _ _
          have hampnv : |amp * nv| ≤ |amp| := by
            rw [abs_mul]
            calc |amp| * |nv| ≤ |amp| * 1 :=
                  mul_le_mul_of_nonneg_left hnv (abs_nonneg amp)
            _ = |amp| := mul_one _
          calc |v - elev| ≤ |v - (elev + amp * nv)| + |amp * nv| := htri
            _ ≤ |amp| * p.persistence * (∑ i ∈ Finset.range k, p.persistence ^ i)
                + |amp| := by linarith
            _ = |amp| * ((p.persistence * ∑ i ∈ Finset.range k, p.persistence ^ i)
                + 1) := by ring

/-- C6: whenever the wave field returns a value, its magnitude is at
most amplitude times the geometric octave sum of persistence powers,
because each octave noise sample lies in the unit interval in absolute
value. -/
theorem getWaveHeight_amplitude_bound (p : WaveParams) (x z v : ℚ)
    (hamp : 0 ≤ p.amplitude) (hpers : 0 ≤ p.persistence)
    (h : getWaveHeight ⟨some ⟨some p⟩⟩ x z = some v) :
    |v| ≤ p.amplitude * ∑ i ∈ Finset.range p.iterations, p.persistence ^ i := by
  have h' : getWaveHeightParams p x z = some v := h
  rw [getWaveHeightParams] at h'
  cases he : elevationLoop p x z p.iterations 0 1 p.frequency with
  | none => rw [he] at h'; exact absurd h' (by simp)
  | some e =>
      rw [he] at h'
      simp only [Option.map_some', Option.some.injEq] at h'
      subst h'
      have hb := elevationLoop_bound p x z hpers p.iterations 0 1 p.frequency e he
      simp only [sub_zero, abs_one, one_mul] at hb
      rw [abs_mul, abs_of_nonneg hamp]
      calc |e| * p.amplitude
          ≤ (∑ i ∈ Finset.range p.iterations, p.persistence ^ i) * p.amplitude :=
            mul_le_mul_of_nonneg_right hb hamp
        _ = p.amplitude * ∑ i ∈ Finset.range p.iterations, p.persistence ^ i :=
            mul_comm _ _

theorem getWaveHeight_amplitude_bound_witness :
    getWaveHeight ⟨some ⟨some ⟨0, 9/250, 2/5, 5287/10000, 3/10, 218/100, 1⟩⟩⟩ 0 0
      = some 0 ∧
    (0 : ℚ) ≤ 9/250 ∧
    |(0 : ℚ)| ≤ (9/250 : ℚ) * ∑ i ∈ Finset.range 1, (3/10 : ℚ) ^ i := by
  have heval : getWaveHeight
      ⟨some ⟨some ⟨0, 9/250, 2/5, 5287/10000, 3/10, 218/100, 1⟩⟩⟩ 0 0 = some 0 := by
    norm_num [getWaveHeight, getWaveHeightParams, elevationLoop, simplex2D,
      simplex2Dcore, cornerContribution, getGradient, hash2D, gradients, F2, G2]
  exact ⟨heval, by norm_num,
    getWaveHeight_amplitude_bound _ 0 0 0 (by norm_num) (by norm_num) heval⟩

end Salio
